import Mathlib

/-!
Verification of the authentication and startup-migration core of the
Mechanic Shop API repository.

The development shallowly embeds the code of `app/utils/token.py`
(token codec and access guard), `app/config.py` and `app/__init__.py`
(secret resolution and the auto-migration routine), and the login
handlers of `app/blueprints/auth/routes.py` and
`app/blueprints/mechanics/routes.py`.

Modelling conventions:
- Clock values are integer Unix seconds (the source truncates timestamps
  with `int(...)`); sub-second float behaviour is below the abstraction.
- The JWT wire format is modelled by an executable, injective-enough
  serialization of the payload together with the signing key; an ideal
  MAC is assumed (a signature verifies exactly when the verifying secret
  equals the signing secret), and any string outside the image of the
  serializer is malformed, mirroring `jose.jwt.decode` raising
  `JWTError`.  `jose` checks the signature first, then the `exp` claim
  (expired exactly when `exp < now` with zero leeway).
- Python string operations (`strip`, `lower`, truthiness) are modelled
  at ASCII fidelity on `List Char`.
-/

namespace Render

/-! ### Python-level character helpers -/

/-- Whitespace characters stripped by Python `str.strip()` (ASCII part). -/
def pyIsSpace (c : Char) : Bool :=
  c = ' ' || c = '\t' || c = '\n' || c = '\r' || c = Char.ofNat 11 || c = Char.ofNat 12

/-- Python `str.lower()` on a character (ASCII fidelity, as in `Char.toLower`). -/
def lowerL (l : List Char) : List Char := l.map Char.toLower

theorem length_dropWhile_le (p : Char → Bool) (l : List Char) :
    (l.dropWhile p).length ≤ l.length := by
  induction l with
  | nil => simp
  | cons c cs ih =>
    rw [List.dropWhile_cons]
    split
    · exact Nat.le_succ_of_le ih
    · exact Nat.le_refl _

/-- Python `str.lstrip()` (no argument form, ASCII whitespace). -/
def lstripL (l : List Char) : List Char := l.dropWhile pyIsSpace

/-- Python `str.rstrip()` (no argument form, ASCII whitespace). -/
def rstripL (l : List Char) : List Char := (l.reverse.dropWhile pyIsSpace).reverse

/-- Python `str.strip()` (no argument form, ASCII whitespace). -/
def stripL (l : List Char) : List Char := rstripL (lstripL l)

theorem length_lstripL_le (l : List Char) : (lstripL l).length ≤ l.length :=
  length_dropWhile_le pyIsSpace l

theorem length_rstripL_le (l : List Char) : (rstripL l).length ≤ l.length := by
  unfold rstripL
  rw [List.length_reverse]
  calc (l.reverse.dropWhile pyIsSpace).length ≤ l.reverse.length :=
        length_dropWhile_le pyIsSpace l.reverse
    _ = l.length := List.length_reverse l

theorem length_stripL_le (l : List Char) : (stripL l).length ≤ l.length :=
  Nat.le_trans (length_rstripL_le _) (length_lstripL_le l)

theorem lstripL_append_ws (w r : List Char) (hw : ∀ c ∈ w, pyIsSpace c = true) :
    lstripL (w ++ r) = lstripL r := by
  induction w with
  | nil => rfl
  | cons c cs ih =>
    have hc : pyIsSpace c = true := hw c (by simp)
    have ih' := ih (fun c hc => hw c (by simp [hc]))
    simpa [lstripL, List.dropWhile_cons, hc] using ih'

theorem lstripL_cons_of_not_space (c : Char) (r : List Char) (hc : pyIsSpace c = false) :
    lstripL (c :: r) = c :: r := by
  simp [lstripL, List.dropWhile_cons, hc]

theorem lstripL_of_all_not_space (l : List Char) (h : ∀ c ∈ l, pyIsSpace c = false) :
    lstripL l = l := by
  cases l with
  | nil => rfl
  | cons c cs => exact lstripL_cons_of_not_space c cs (h c (by simp))

theorem rstripL_of_all_not_space (l : List Char) (h : ∀ c ∈ l, pyIsSpace c = false) :
    rstripL l = l := by
  unfold rstripL
  have hdw : l.reverse.dropWhile pyIsSpace = l.reverse := by
    cases hr : l.reverse with
    | nil => rfl
    | cons c r =>
      have hc : pyIsSpace c = false := by
        apply h
        have : c ∈ l.reverse := by rw [hr]; simp
        simpa using this
      rw [List.dropWhile_cons, hc]
      simp
  rw [hdw, List.reverse_reverse]

theorem stripL_of_all_not_space (l : List Char) (h : ∀ c ∈ l, pyIsSpace c = false) :
    stripL l = l := by
  unfold stripL
  rw [lstripL_of_all_not_space l h, rstripL_of_all_not_space l h]

theorem rstripL_append_of_fixed (x t : List Char) (hne : t ≠ [])
    (hfix : rstripL t = t) : rstripL (x ++ t) = x ++ t := by
  have hrev : t.reverse.dropWhile pyIsSpace = t.reverse := by
    have := congrArg List.reverse hfix
    simpa [rstripL] using this
  obtain ⟨c, r, hcr⟩ : ∃ c r, t.reverse = c :: r := by
    cases hr : t.reverse with
    | nil => exact absurd (by simpa using congrArg List.reverse hr) hne
    | cons c r => exact ⟨c, r, rfl⟩
  have hc : pyIsSpace c = false := by
    by_contra hcon
    have hc' : pyIsSpace c = true := by
      cases h' : pyIsSpace c
      · exact absurd h' hcon
      · rfl
    rw [hcr, List.dropWhile_cons, hc'] at hrev
    have := congrArg List.length hrev
    simp at this
    have hle := length_dropWhile_le pyIsSpace r
    omega
  unfold rstripL
  rw [List.reverse_append, hcr, List.cons_append, List.dropWhile_cons, hc]
  rw [if_neg (by simp)]
  rw [show c :: (r ++ x.reverse) = (x ++ t).reverse by
    rw [List.reverse_append, hcr, List.cons_append]]
  exact List.reverse_reverse _

/-! ### Escaping of payload fields

The serializer joins fields with the bar character.  Field contents are
escaped so that the escaped text contains neither a bar nor any
whitespace character (real JWTs are base64 text, likewise free of
whitespace and of the separator). -/

def escChar (c : Char) : List Char :=
  if c = '|' then ['!', 'p']
  else if c = '!' then ['!', 'b']
  else if c = ' ' then ['!', 's']
  else if c = '\t' then ['!', 't']
  else if c = '\n' then ['!', 'n']
  else if c = '\r' then ['!', 'r']
  else if c = Char.ofNat 11 then ['!', 'v']
  else if c = Char.ofNat 12 then ['!', 'f']
  else [c]

def escL : List Char → List Char
  | [] => []
  | c :: cs => escChar c ++ escL cs

def unescPair (d : Char) : Option Char :=
  if d = 'p' then some '|'
  else if d = 'b' then some '!'
  else if d = 's' then some ' '
  else if d = 't' then some '\t'
  else if d = 'n' then some '\n'
  else if d = 'r' then some '\r'
  else if d = 'v' then some (Char.ofNat 11)
  else if d = 'f' then some (Char.ofNat 12)
  else none

def unescL : List Char → Option (List Char)
  | [] => some []
  | c :: cs =>
    if c = '!' then
      match cs with
      | [] => none
      | d :: ds =>
        match unescPair d with
        | some c' => (unescL ds).map (fun l => c' :: l)
        | none => none
    else if c = '|' then none
    else (unescL cs).map (fun l => c :: l)

theorem unescL_escL (l : List Char) : unescL (escL l) = some l := by
  induction l with
  | nil => rfl
  | cons c cs ih =>
    show unescL (escChar c ++ escL cs) = some (c :: cs)
    unfold escChar
    split_ifs with h1 h2 h3 h4 h5 h6 h7 h8
    · subst h1; simp [unescL, unescPair, ih]
    · subst h2; simp [unescL, unescPair, ih]
    · subst h3; simp [unescL, unescPair, ih]
    · subst h4; simp [unescL, unescPair, ih]
    · subst h5; simp [unescL, unescPair, ih]
    · subst h6; simp [unescL, unescPair, ih]
    · subst h7; simp [unescL, unescPair, ih]
    · subst h8; simp [unescL, unescPair, ih]
    · cases hcs : escL cs with
      | nil =>
        rw [hcs] at ih
        have hnil : cs = [] := by simpa [unescL, eq_comm] using ih
        simp [unescL, h1, h2, hnil]
      | cons d ds =>
        rw [hcs] at ih
        simp [unescL, h1, h2, ih]

theorem escChar_not_bar_not_space (c : Char) :
    ∀ c' ∈ escChar c, c' ≠ '|' ∧ pyIsSpace c' = false := by
  unfold escChar
  split_ifs with h1 h2 h3 h4 h5 h6 h7 h8
  all_goals intro c' hc'
  case neg =>
    rw [List.mem_singleton.mp hc']
    refine ⟨h1, ?_⟩
    simp [pyIsSpace, h3, h4, h5, h6, h7, h8]
  all_goals simp only [List.mem_cons, List.not_mem_nil, or_false] at hc'
  all_goals rcases hc' with rfl | rfl
  all_goals exact ⟨by decide, by decide⟩

theorem escL_not_bar_not_space (l : List Char) :
    ∀ c' ∈ escL l, c' ≠ '|' ∧ pyIsSpace c' = false := by
  induction l with
  | nil => intro c' hc'; simp [escL] at hc'
  | cons c cs ih =>
    intro c' hc'
    rcases List.mem_append.mp (by simpa [escL] using hc') with h | h
    · exact escChar_not_bar_not_space c c' h
    · exact ih c' h

/-! ### Decimal encoding of the numeric claims (`iat`, `exp`)

Little-endian decimal digits; the fuel argument makes the definition
structurally recursive so that concrete tokens evaluate inside `decide`. -/

def digitCh (d : Nat) : Char := Char.ofNat (48 + d)

def charDigit (c : Char) : Option Nat :=
  if 48 ≤ c.toNat ∧ c.toNat ≤ 57 then some (c.toNat - 48) else none

theorem charDigit_digitCh (d : Nat) (h : d < 10) : charDigit (digitCh d) = some d := by
  interval_cases d <;> decide

theorem digitCh_props (d : Nat) (h : d < 10) :
    digitCh d ≠ '|' ∧ pyIsSpace (digitCh d) = false ∧ digitCh d ≠ 'm' := by
  interval_cases d <;> exact ⟨by decide, by decide, by decide⟩

def natLEFuel : Nat → Nat → List Char
  | 0, _ => []
  | fuel + 1, n => if n = 0 then [] else digitCh (n % 10) :: natLEFuel fuel (n / 10)

/-- Little-endian decimal digit string of a natural number (empty for 0). -/
def natLE (n : Nat) : List Char := natLEFuel n n

theorem natLEFuel_congr : ∀ f1 f2 n, n ≤ f1 → n ≤ f2 → natLEFuel f1 n = natLEFuel f2 n := by
  intro f1
  induction f1 with
  | zero =>
    intro f2 n h1 h2
    have hn : n = 0 := Nat.le_zero.mp h1
    subst hn
    cases f2 <;> simp [natLEFuel]
  | succ f ih =>
    intro f2 n h1 h2
    cases f2 with
    | zero =>
      have hn : n = 0 := Nat.le_zero.mp h2
      subst hn
      simp [natLEFuel]
    | succ f2' =>
      by_cases hn : n = 0
      · subst hn; simp [natLEFuel]
      · have hdiv : n / 10 < n := Nat.div_lt_self (Nat.pos_of_ne_zero hn) (by norm_num)
        simp only [natLEFuel, if_neg hn]
        congr 1
        exact ih f2' (n / 10) (by omega) (by omega)

theorem natLE_eq (n : Nat) :
    natLE n = if n = 0 then [] else digitCh (n % 10) :: natLE (n / 10) := by
  by_cases hn : n = 0
  · subst hn; rfl
  · rw [if_neg hn]
    unfold natLE
    obtain ⟨m, rfl⟩ : ∃ m, n = m + 1 := ⟨n - 1, by omega⟩
    simp only [natLEFuel, if_neg hn]
    congr 1
    have hdiv : (m + 1) / 10 < m + 1 := Nat.div_lt_self (Nat.succ_pos m) (by norm_num)
    exact natLEFuel_congr m ((m + 1) / 10) ((m + 1) / 10) (by omega) (Nat.le_refl _)

theorem natLE_nil_iff (n : Nat) : natLE n = [] ↔ n = 0 := by
  constructor
  · intro h
    by_contra hn
    rw [natLE_eq, if_neg hn] at h
    exact List.cons_ne_nil _ _ h
  · intro h; subst h; rfl

def parseLE : List Char → Option Nat
  | [] => some 0
  | c :: cs =>
    match charDigit c with
    | none => none
    | some d => (parseLE cs).map (fun m => d + 10 * m)

theorem parseLE_natLE (n : Nat) : parseLE (natLE n) = some n := by
  induction n using Nat.strong_induction_on with
  | _ n ih =>
    rw [natLE_eq]
    by_cases hn : n = 0
    · subst hn; simp [parseLE]
    · rw [if_neg hn]
      have hd : charDigit (digitCh (n % 10)) = some (n % 10) :=
        charDigit_digitCh _ (Nat.mod_lt n (by norm_num))
      have hdiv : n / 10 < n := Nat.div_lt_self (Nat.pos_of_ne_zero hn) (by norm_num)
      simp only [parseLE, hd]
      rw [ih (n / 10) hdiv]
      show some (n % 10 + 10 * (n / 10)) = some n
      exact congrArg some (Nat.mod_add_div n 10)

theorem natLE_mem (n : Nat) : ∀ c ∈ natLE n, ∃ d, d < 10 ∧ c = digitCh d := by
  induction n using Nat.strong_induction_on with
  | _ n ih =>
    rw [natLE_eq]
    by_cases hn : n = 0
    · subst hn; simp
    · rw [if_neg hn]
      intro c hc
      have hdiv : n / 10 < n := Nat.div_lt_self (Nat.pos_of_ne_zero hn) (by norm_num)
      rcases List.mem_cons.mp hc with rfl | hc'
      · exact ⟨n % 10, Nat.mod_lt n (by norm_num), rfl⟩
      · exact ih (n / 10) hdiv c hc'

/-- Signed decimal: an integer is encoded as its digit string, preceded by
the sign marker character for negative values. -/
def intChars (i : Int) : List Char :=
  if i < 0 then 'm' :: natLE (-i).toNat else natLE i.toNat

def parseInt : List Char → Option Int
  | [] => some 0
  | c :: rest =>
    if c = 'm' then (parseLE rest).map (fun n => -(n : Int))
    else (parseLE (c :: rest)).map (fun n => (n : Int))

theorem parseInt_intChars (i : Int) : parseInt (intChars i) = some i := by
  unfold intChars
  by_cases hi : i < 0
  · rw [if_pos hi]
    simp only [parseInt, if_pos rfl]
    rw [parseLE_natLE]
    show some (-(((-i).toNat : Nat) : Int)) = some i
    congr 1
    omega
  · rw [if_neg hi]
    cases hl : natLE i.toNat with
    | nil =>
      have h0 : i.toNat = 0 := (natLE_nil_iff _).mp hl
      show some (0 : Int) = some i
      congr 1
      omega
    | cons c r =>
      have hcm : c ≠ 'm' := by
        have hmem := natLE_mem i.toNat c (by rw [hl]; simp)
        obtain ⟨d, hd, rfl⟩ := hmem
        exact (digitCh_props d hd).2.2
      simp only [parseInt, if_neg hcm]
      rw [← hl, parseLE_natLE]
      show some ((i.toNat : Nat) : Int) = some i
      congr 1
      omega

theorem intChars_mem (i : Int) :
    ∀ c ∈ intChars i, c ≠ '|' ∧ pyIsSpace c = false := by
  unfold intChars
  intro c hc
  have hdig : ∀ c', (∃ d, d < 10 ∧ c' = digitCh d) → c' ≠ '|' ∧ pyIsSpace c' = false := by
    rintro c' ⟨d, hd, rfl⟩
    exact ⟨(digitCh_props d hd).1, (digitCh_props d hd).2.1⟩
  split at hc
  · rcases List.mem_cons.mp hc with rfl | hc'
    · exact ⟨by decide, by decide⟩
    · exact hdig c (natLE_mem _ c hc')
  · exact hdig c (natLE_mem _ c hc)

/-! ### Bar-separated field layer (stand-in for the dot-separated JWT parts) -/

def joinBar : List (List Char) → List Char
  | [] => []
  | [f] => f
  | f :: g :: rest => f ++ '|' :: joinBar (g :: rest)

def splitBarCore : List Char → List Char × List (List Char)
  | [] => ([], [])
  | c :: cs =>
    let r := splitBarCore cs
    if c = '|' then ([], r.1 :: r.2) else (c :: r.1, r.2)

/-- Splitting a character list at every bar, keeping empty fields (the
analogue of Python `str.split`). -/
def splitBar (l : List Char) : List (List Char) :=
  (splitBarCore l).1 :: (splitBarCore l).2

theorem splitBarCore_no_bar (f : List Char) (hf : ∀ c ∈ f, c ≠ '|') :
    splitBarCore f = (f, []) := by
  induction f with
  | nil => rfl
  | cons c cs ih =>
    have hc : c ≠ '|' := hf c (by simp)
    have ih' := ih (fun c hc' => hf c (by simp [hc']))
    simp [splitBarCore, hc, ih']

theorem splitBarCore_append (f r : List Char) (hf : ∀ c ∈ f, c ≠ '|') :
    splitBarCore (f ++ '|' :: r) = (f, (splitBarCore r).1 :: (splitBarCore r).2) := by
  induction f with
  | nil => simp [splitBarCore]
  | cons c cs ih =>
    have hc : c ≠ '|' := hf c (by simp)
    have ih' := ih (fun c hc' => hf c (by simp [hc']))
    simp [splitBarCore, hc, ih']

theorem splitBar_joinBar (fields : List (List Char)) (hne : fields ≠ [])
    (hf : ∀ f ∈ fields, ∀ c ∈ f, c ≠ '|') :
    splitBar (joinBar fields) = fields := by
  induction fields with
  | nil => exact absurd rfl hne
  | cons f rest ih =>
    cases rest with
    | nil =>
      show splitBar (joinBar [f]) = [f]
      unfold splitBar
      rw [show joinBar [f] = f from rfl]
      rw [splitBarCore_no_bar f (hf f (by simp))]
    | cons g rest' =>
      have hjoin : joinBar (f :: g :: rest') = f ++ '|' :: joinBar (g :: rest') := rfl
      unfold splitBar
      rw [hjoin, splitBarCore_append f _ (hf f (by simp))]
      have ih' := ih (List.cons_ne_nil g rest')
        (fun f' hf' c hc => hf f' (by simp [List.mem_cons] at hf' ⊢; tauto) c hc)
      unfold splitBar at ih'
      simpa using ih'

/-! ### JWT payload and wire codec

`encode_token` (token.py lines 23-32) builds the claim set
`{sub, iat, exp}` plus `role` when the role argument is truthy, and signs
it with HS256 under `_secret_key()`.  The wire token is modelled as the
serialized payload together with the signing key (ideal MAC): a token
verifies under a secret exactly when that secret equals the embedded
signing key, matching signature-first checking in `jose.jwt.decode`. -/

structure Payload where
  sub : String
  iat : Int
  exp : Int
  role : Option String
deriving DecidableEq

def roleField : Option String → List Char
  | none => ['n']
  | some r => 's' :: escL r.toList

def parseRole : List Char → Option (Option String)
  | ['n'] => some none
  | 's' :: rest => (unescL rest).map (fun l => some (String.mk l))
  | _ => none

theorem parseRole_roleField (ro : Option String) : parseRole (roleField ro) = some ro := by
  cases ro with
  | none => rfl
  | some r =>
    show parseRole ('s' :: escL r.toList) = some (some r)
    simp only [parseRole, unescL_escL, Option.map_some']
    congr

theorem roleField_not_bar_not_space (ro : Option String) :
    ∀ c ∈ roleField ro, c ≠ '|' ∧ pyIsSpace c = false := by
  cases ro with
  | none => intro c hc; simp [roleField] at hc; subst hc; exact ⟨by decide, by decide⟩
  | some r =>
    intro c hc
    rcases List.mem_cons.mp hc with rfl | hc'
    · exact ⟨by decide, by decide⟩
    · exact escL_not_bar_not_space r.toList c hc'

def serializeFields (p : Payload) (key : String) : List (List Char) :=
  [['j', 'w', 't'], escL p.sub.toList, intChars p.iat, intChars p.exp,
   roleField p.role, escL key.toList]

def serializeChars (p : Payload) (key : String) : List Char :=
  joinBar (serializeFields p key)

/-- Wire form of a signed token: the serialized payload plus signing key. -/
def serialize (p : Payload) (key : String) : String :=
  String.mk (serializeChars p key)

/-- Structural parse of a candidate token string: recovers the payload and
the key the token was signed with, or nothing when the string is not a
well-formed token (the `JWTError`-malformed case of `jose`). -/
def parsePayload (l : List Char) : Option (Payload × String) :=
  match splitBar l with
  | [tag, subF, iatF, expF, roleF, keyF] =>
    if tag = ['j', 'w', 't'] then
      (unescL subF).bind (fun sub =>
        (parseInt iatF).bind (fun iat =>
          (parseInt expF).bind (fun exp =>
            (parseRole roleF).bind (fun role =>
              (unescL keyF).map (fun key =>
                (⟨String.mk sub, iat, exp, role⟩, String.mk key))))))
    else none
  | _ => none

theorem serializeFields_no_bar (p : Payload) (key : String) :
    ∀ f ∈ serializeFields p key, ∀ c ∈ f, c ≠ '|' := by
  intro f hf c hc
  simp only [serializeFields, List.mem_cons, List.not_mem_nil, or_false] at hf
  rcases hf with rfl | rfl | rfl | rfl | rfl | rfl
  · simp only [List.mem_cons, List.not_mem_nil, or_false] at hc
    rcases hc with rfl | rfl | rfl <;> decide
  · exact (escL_not_bar_not_space _ c hc).1
  · exact (intChars_mem _ c hc).1
  · exact (intChars_mem _ c hc).1
  · exact (roleField_not_bar_not_space _ c hc).1
  · exact (escL_not_bar_not_space _ c hc).1

theorem serializeChars_not_space (p : Payload) (key : String) :
    ∀ c ∈ serializeChars p key, pyIsSpace c = false := by
  intro c hc
  unfold serializeChars serializeFields at hc
  have hsplit : ∀ (f g : List Char) (rest : List (List Char)),
      c ∈ joinBar (f :: g :: rest) → c ∈ f ∨ c = '|' ∨ c ∈ joinBar (g :: rest) := by
    intro f g rest h
    have h' : c ∈ f ++ '|' :: joinBar (g :: rest) := h
    rcases List.mem_append.mp h' with h'' | h''
    · exact Or.inl h''
    · rcases List.mem_cons.mp h'' with rfl | h3
      · exact Or.inr (Or.inl rfl)
      · exact Or.inr (Or.inr h3)
  have hbar : pyIsSpace '|' = false := by decide
  have htag : ∀ c', c' ∈ (['j', 'w', 't'] : List Char) → pyIsSpace c' = false := by decide
  rcases hsplit _ _ _ hc with h | h | h
  · exact htag c h
  rcases h with rfl | h
  · exact hbar
  rcases hsplit _ _ _ h with h | h | h
  · exact (escL_not_bar_not_space _ c h).2
  rcases h with rfl | h
  · exact hbar
  rcases hsplit _ _ _ h with h | h | h
  · exact (intChars_mem _ c h).2
  rcases h with rfl | h
  · exact hbar
  rcases hsplit _ _ _ h with h | h | h
  · exact (intChars_mem _ c h).2
  rcases h with rfl | h
  · exact hbar
  rcases hsplit _ _ _ h with h | h | h
  · exact (roleField_not_bar_not_space _ c h).2
  rcases h with rfl | h
  · exact hbar
  · exact (escL_not_bar_not_space _ c (by simpa [joinBar] using h)).2

theorem parsePayload_serialize (p : Payload) (key : String) :
    parsePayload (serializeChars p key) = some (p, key) := by
  have h1 : parsePayload (serializeChars p key) =
      (unescL (escL p.sub.toList)).bind (fun sub =>
        (parseInt (intChars p.iat)).bind (fun iat =>
          (parseInt (intChars p.exp)).bind (fun exp =>
            (parseRole (roleField p.role)).bind (fun role =>
              (unescL (escL key.toList)).map (fun k =>
                (⟨String.mk sub, iat, exp, role⟩, String.mk k)))))) := by
    unfold parsePayload serializeChars
    rw [splitBar_joinBar (serializeFields p key) (by simp [serializeFields])
      (serializeFields_no_bar p key)]
    rfl
  rw [h1, unescL_escL, parseInt_intChars, parseInt_intChars, parseRole_roleField, unescL_escL]
  rfl

theorem serializeChars_shape (p : Payload) (key : String) :
    ∃ r, serializeChars p key = 'j' :: 'w' :: 't' :: '|' :: r :=
  ⟨_, rfl⟩

/-! ### Token errors and `jose` decoding -/

inductive TokenError
  | malformed
  | badSignature
  | expired
deriving DecidableEq

inductive DecodeResult
  | ok (p : Payload)
  | error (e : TokenError)
deriving DecidableEq

/-- Model of `jose.jwt.decode(token, key, algorithms=[ALGO])` evaluated at
integer clock `now`: unparsable structure is malformed, then the
signature is checked, then the `exp` claim (expired exactly when
`exp < now`, zero leeway). -/
def jwt_decode (tok : String) (key : String) (now : Int) : DecodeResult :=
  match parsePayload tok.toList with
  | none => .error .malformed
  | some (p, sigKey) =>
    if sigKey ≠ key then .error .badSignature
    else if p.exp < now then .error .expired
    else .ok p

theorem jwt_decode_serialize (p : Payload) (key : String) (now : Int) :
    jwt_decode (serialize p key) key now =
      if p.exp < now then DecodeResult.error TokenError.expired else DecodeResult.ok p := by
  unfold jwt_decode serialize
  have htl : (String.mk (serializeChars p key)).toList = serializeChars p key := rfl
  rw [htl, parsePayload_serialize]
  simp

/-! ### Secret resolution (token.py lines 15-20, config.py lines 19-24) -/

/-- Python `a or b` on an optional string and a default (empty string is
falsy). -/
def pyOr (a : Option String) (b : String) : String :=
  match a with
  | some s => if s = "" then b else s
  | none => b

/-- token.py `_secret_key()`: `current_app.config.get("SECRET_KEY") or
os.getenv("SECRET_KEY") or "dev-secret"`, evaluated at each call. -/
def _secret_key (cfgSecret envSecret : Option String) : String :=
  pyOr cfgSecret (pyOr envSecret "dev-secret")

/-- config.py `Config.SECRET_KEY = os.getenv("SECRET_KEY", "dev-secret")`. -/
def config_SECRET_KEY (envSecret : Option String) : String :=
  envSecret.getD "dev-secret"

/-- config.py `ProductionConfig` inherits `SECRET_KEY` from `Config`
unchanged (it only constrains the database URI). -/
def productionConfig_SECRET_KEY (envSecret : Option String) : String :=
  config_SECRET_KEY envSecret

/-! ### Token issuance (token.py lines 23-37) -/

/-- token.py `encode_token(sub, role, expires_in)`: claims
`{sub, iat = now, exp = now + expires_in}` plus `role` exactly when the
role argument is truthy; signed with `_secret_key()`.  The source default
for `expires_in` is 28800 seconds (8 hours); callers relying on the
default are modelled by passing 28800 explicitly. -/
def encode_token (cfgSecret envSecret : Option String) (now : Int) (sub : String)
    (role : Option String) (expires_in : Int) : String :=
  serialize
    ⟨sub, now, now + expires_in,
      match role with
      | some r => if r = "" then none else some r
      | none => none⟩
    (_secret_key cfgSecret envSecret)

/-- token.py `generate_token`: alias for `encode_token`. -/
def generate_token (cfgSecret envSecret : Option String) (now : Int) (sub : String)
    (role : Option String) (expires_in : Int) : String :=
  encode_token cfgSecret envSecret now sub role expires_in

/-- token.py `decode_jwt(token)`: `jwt.decode(token, _secret_key(), ...)`. -/
def decode_jwt (cfgSecret envSecret : Option String) (now : Int) (tok : String) : DecodeResult :=
  jwt_decode tok (_secret_key cfgSecret envSecret) now

/-- Subject and role of a successful decode, the pair the guard exposes. -/
def decodedSubRole : DecodeResult → Option (String × Option String)
  | .ok p => some (p.sub, p.role)
  | .error _ => none

/-! ### Bearer extraction (token.py lines 44-52)

The loop `while lower.startswith("bearer"): h = h[6:].strip()` is modelled
with a fuel argument (the initial length, ample since every iteration
removes at least six characters) so the function stays structurally
recursive and evaluates under `decide`. -/

def bearerL : List Char := ['b', 'e', 'a', 'r', 'e', 'r']

def stripBearersFuel : Nat → List Char → List Char
  | 0, h => h
  | fuel + 1, h =>
    if (lowerL h).take 6 = bearerL then stripBearersFuel fuel (stripL (h.drop 6)) else h

def stripBearers (h : List Char) : List Char := stripBearersFuel h.length h

theorem length_ge_of_bearer (h : List Char) (hc : (lowerL h).take 6 = bearerL) :
    6 ≤ h.length := by
  have hlen := congrArg List.length hc
  rw [List.length_take] at hlen
  have hmap : (lowerL h).length = h.length := List.length_map h Char.toLower
  rw [hmap] at hlen
  have : min 6 h.length = 6 := by simpa [bearerL] using hlen
  omega

theorem stripBearersFuel_nil (f : Nat) : stripBearersFuel f [] = [] := by
  cases f with
  | zero => rfl
  | succ f' =>
    simp only [stripBearersFuel]
    rw [if_neg (by decide)]

theorem stripBearersFuel_congr : ∀ f1 f2 h, h.length ≤ f1 → h.length ≤ f2 →
    stripBearersFuel f1 h = stripBearersFuel f2 h := by
  intro f1
  induction f1 with
  | zero =>
    intro f2 h h1 _
    have hnil : h = [] := List.length_eq_zero.mp (Nat.le_zero.mp h1)
    subst hnil
    rw [stripBearersFuel_nil, stripBearersFuel_nil]
  | succ f ih =>
    intro f2 h h1 h2
    cases f2 with
    | zero =>
      have hnil : h = [] := List.length_eq_zero.mp (Nat.le_zero.mp h2)
      subst hnil
      rw [stripBearersFuel_nil, stripBearersFuel_nil]
    | succ f2' =>
      simp only [stripBearersFuel]
      by_cases hc : (lowerL h).take 6 = bearerL
      · rw [if_pos hc, if_pos hc]
        have h6 := length_ge_of_bearer h hc
        have hs := length_stripL_le (h.drop 6)
        rw [List.length_drop] at hs
        exact ih f2' _ (by omega) (by omega)
      · rw [if_neg hc, if_neg hc]

theorem stripBearers_eq (h : List Char) :
    stripBearers h = if (lowerL h).take 6 = bearerL
      then stripBearers (stripL (h.drop 6)) else h := by
  unfold stripBearers
  by_cases hc : (lowerL h).take 6 = bearerL
  · rw [if_pos hc]
    have h6 := length_ge_of_bearer h hc
    obtain ⟨m, hm⟩ : ∃ m, h.length = m + 1 := ⟨h.length - 1, by omega⟩
    rw [hm]
    simp only [stripBearersFuel]
    rw [if_pos hc]
    have hs := length_stripL_le (h.drop 6)
    rw [List.length_drop] at hs
    exact stripBearersFuel_congr m _ _ (by omega) (Nat.le_refl _)
  · rw [if_neg hc]
    cases hl : h.length with
    | zero => rfl
    | succ m =>
      simp only [stripBearersFuel]
      rw [if_neg hc]

theorem stripBearers_of_not_bearer (t : List Char) (ht : (lowerL t).take 6 ≠ bearerL) :
    stripBearers t = t := by
  rw [stripBearers_eq, if_neg ht]

theorem stripBearers_bearer_step (b r : List Char) (hb : lowerL b = bearerL) :
    stripBearers (b ++ r) = stripBearers (stripL r) := by
  have hlen : b.length = 6 := by
    have h' := congrArg List.length hb
    simpa [lowerL, bearerL] using h'
  have hlb : (lowerL b).length = 6 := by rw [lowerL, List.length_map, hlen]
  have hcond : (lowerL (b ++ r)).take 6 = bearerL := by
    rw [show lowerL (b ++ r) = lowerL b ++ lowerL r by simp [lowerL]]
    rw [← hlb, List.take_left, hb]
  have hdrop : (b ++ r).drop 6 = r := by
    rw [← hlen]
    exact List.drop_left b r
  rw [stripBearers_eq, if_pos hcond, hdrop]

/-- token.py `_extract_bearer_token(auth_header)`.  The falsy-check on the
argument covers both `None` and the empty string; the caller in
`token_required` passes `request.headers.get("Authorization", "")`, so an
absent header arrives as `""`. -/
def _extract_bearer_token (auth_header : String) : Option String :=
  if auth_header = "" then none
  else
    let h := stripBearers (stripL auth_header.toList)
    if h = [] then none else some (String.mk h)

/-- Header layout with repeated leading Bearer markers: optional leading
whitespace, then for each element a case variant of "bearer" followed by
whitespace, then the trailing remainder. -/
def joinReps : List (List Char × List Char) → List Char → List Char
  | [], t => t
  | bw :: rest, t => bw.1 ++ bw.2 ++ joinReps rest t

theorem joinReps_ends (t : List Char) : ∀ reps, ∃ x, joinReps reps t = x ++ t := by
  intro reps
  induction reps with
  | nil => exact ⟨[], rfl⟩
  | cons bw rest ih =>
    obtain ⟨x, hx⟩ := ih
    exact ⟨bw.1 ++ bw.2 ++ x, by simp [joinReps, hx]⟩

theorem not_space_of_toLower_b (c : Char) (h : Char.toLower c = 'b') :
    pyIsSpace c = false := by
  by_contra hcon
  have hc : pyIsSpace c = true := by
    cases h' : pyIsSpace c
    · exact absurd h' hcon
    · rfl
  have hmem : c = ' ' ∨ c = '\t' ∨ c = '\n' ∨ c = '\r' ∨ c = Char.ofNat 11 ∨
      c = Char.ofNat 12 := by
    have h' := hc
    simp [pyIsSpace] at h'
    tauto
  rcases hmem with rfl | rfl | rfl | rfl | rfl | rfl <;> exact absurd h (by decide)

theorem stripBearers_stripL_joinReps (t : List Char) (hne : t ≠ [])
    (hl : lstripL t = t) (hr : rstripL t = t) (hb : (lowerL t).take 6 ≠ bearerL) :
    ∀ reps : List (List Char × List Char),
      (∀ bw ∈ reps, lowerL bw.1 = bearerL ∧ ∀ c ∈ bw.2, pyIsSpace c = true) →
      stripBearers (stripL (joinReps reps t)) = t := by
  intro reps
  induction reps with
  | nil =>
    intro _
    show stripBearers (stripL t) = t
    rw [show stripL t = t by rw [stripL, hl, hr]]
    exact stripBearers_of_not_bearer t hb
  | cons bw rest ih =>
    intro hreps
    obtain ⟨hbw, hws⟩ := hreps bw (by simp)
    have hjoin : joinReps (bw :: rest) t = bw.1 ++ (bw.2 ++ joinReps rest t) := by
      show (bw.1 ++ bw.2) ++ joinReps rest t = _
      rw [List.append_assoc]
    rw [hjoin]
    obtain ⟨y, hy⟩ := joinReps_ends t rest
    have hwhole : bw.1 ++ (bw.2 ++ joinReps rest t) = (bw.1 ++ (bw.2 ++ y)) ++ t := by
      rw [hy]
      simp [List.append_assoc]
    have hfixl : lstripL (bw.1 ++ (bw.2 ++ joinReps rest t)) =
        bw.1 ++ (bw.2 ++ joinReps rest t) := by
      cases hb1 : bw.1 with
      | nil =>
        rw [hb1] at hbw
        exact absurd hbw (by decide)
      | cons b0 b' =>
        have hlow : Char.toLower b0 = 'b' := by
          rw [hb1] at hbw
          have := congrArg List.head? hbw
          simpa [lowerL, bearerL] using this
        have hb0 : pyIsSpace b0 = false := not_space_of_toLower_b b0 hlow
        simpa using lstripL_cons_of_not_space b0 (b' ++ (bw.2 ++ joinReps rest t)) hb0
    have hfix : stripL (bw.1 ++ (bw.2 ++ joinReps rest t)) =
        bw.1 ++ (bw.2 ++ joinReps rest t) := by
      rw [stripL, hfixl, hwhole]
      exact rstripL_append_of_fixed _ t hne hr
    rw [hfix, stripBearers_bearer_step bw.1 (bw.2 ++ joinReps rest t) hbw]
    have hstripws : stripL (bw.2 ++ joinReps rest t) = stripL (joinReps rest t) := by
      rw [stripL, stripL, lstripL_append_ws _ _ hws]
    rw [hstripws]
    exact ih (fun bw' hbw' => hreps bw' (by simp [hbw']))

/-! ### Serialized tokens are extraction-safe -/

theorem serializeChars_not_bearer (p : Payload) (key : String) :
    (lowerL (serializeChars p key)).take 6 ≠ bearerL := by
  obtain ⟨r, hr⟩ := serializeChars_shape p key
  rw [hr]
  intro hcon
  have hhead := congrArg List.head? hcon
  rw [show (lowerL ('j' :: 'w' :: 't' :: '|' :: r)).take 6 =
      'j' :: (lowerL ('w' :: 't' :: '|' :: r)).take 5 from rfl] at hhead
  simp [bearerL] at hhead

theorem serialize_toList (p : Payload) (key : String) :
    (serialize p key).toList = serializeChars p key := rfl

theorem serializeChars_ne_nil (p : Payload) (key : String) :
    serializeChars p key ≠ [] := by
  obtain ⟨r, hr⟩ := serializeChars_shape p key
  rw [hr]
  exact List.cons_ne_nil _ _

/-- Extraction of a whitespace-free, non-bearer-leading token from a
standard `Bearer <token>` header. -/
theorem extract_bearer_of_token (tok : String) (hne : tok.toList ≠ [])
    (hns : ∀ c ∈ tok.toList, pyIsSpace c = false)
    (hb : (lowerL tok.toList).take 6 ≠ bearerL) :
    _extract_bearer_token ("Bearer " ++ tok) = some tok := by
  unfold _extract_bearer_token
  have htl : ("Bearer " ++ tok).toList =
      'B' :: 'e' :: 'a' :: 'r' :: 'e' :: 'r' :: ' ' :: tok.toList := rfl
  have hnz : ("Bearer " ++ tok) ≠ "" := by
    intro hcon
    have h' := congrArg String.toList hcon
    rw [htl] at h'
    exact List.cons_ne_nil _ _ h'
  rw [if_neg hnz, htl]
  have hfixbear : stripL ('B' :: 'e' :: 'a' :: 'r' :: 'e' :: 'r' :: ' ' :: tok.toList) =
      'B' :: 'e' :: 'a' :: 'r' :: 'e' :: 'r' :: ' ' :: tok.toList := by
    rw [stripL]
    rw [lstripL_cons_of_not_space 'B' _ (by decide)]
    rw [show ('B' :: 'e' :: 'a' :: 'r' :: 'e' :: 'r' :: ' ' :: tok.toList) =
      ('B' :: 'e' :: 'a' :: 'r' :: 'e' :: 'r' :: ' ' :: []) ++ tok.toList from by simp]
    exact rstripL_append_of_fixed _ _ hne (rstripL_of_all_not_space _ hns)
  rw [hfixbear]
  rw [show ('B' :: 'e' :: 'a' :: 'r' :: 'e' :: 'r' :: ' ' :: tok.toList) =
      ('B' :: 'e' :: 'a' :: 'r' :: 'e' :: 'r' :: []) ++ (' ' :: tok.toList) from by simp]
  rw [stripBearers_bearer_step _ _ (by decide)]
  have hstrip2 : stripL (' ' :: tok.toList) = tok.toList := by
    rw [stripL]
    rw [show (' ' :: tok.toList) = [' '] ++ tok.toList from by simp]
    rw [lstripL_append_ws [' '] _ (by decide)]
    rw [lstripL_of_all_not_space _ hns, rstripL_of_all_not_space _ hns]
  rw [hstrip2, stripBearers_of_not_bearer _ hb, if_neg hne]
  congr

/-! ### The access guard (token.py lines 55-104)

`token_required(*roles)` wraps a view: extract the bearer token, decode
it, enforce the role set, then inject the subject into matching view
parameters.  The outward decision is modelled by `GuardResult`; the
kwarg-injection machinery has no bearing on the gate decision beyond the
exposed subject and role, which `success` carries. -/

inductive GuardResult
  | missingHeader
  | invalidToken
  | forbidden
  | success (sub : String) (role : Option String)
deriving DecidableEq

/-- Membership test `role in roles` for the decoded role claim; a missing
claim (`None`) is never a member of a (string) role list. -/
def roleMem (role : Option String) (roles : List String) : Bool :=
  match role with
  | some r => roles.contains r
  | none => false

/-- Decision taken by the guard wrapper once `decode_jwt` has run: any
`JWTError` is the invalid-token outcome; otherwise the role set (when
non-empty) must contain the decoded role claim. -/
def guardOfDecode (roles : List String) : DecodeResult → GuardResult
  | DecodeResult.error _ => GuardResult.invalidToken
  | DecodeResult.ok p =>
    if !roles.isEmpty && !roleMem p.role roles then GuardResult.forbidden
    else GuardResult.success p.sub p.role

/-- token.py `token_required(*roles)` applied to a request whose
`Authorization` header is `authHeader` (`none` when absent), under config
secret `cfgSecret`, environment secret `envSecret`, at clock `now`. -/
def token_required (cfgSecret envSecret : Option String) (now : Int)
    (roles : List String) (authHeader : Option String) : GuardResult :=
  match _extract_bearer_token (authHeader.getD "") with
  | none => GuardResult.missingHeader
  | some tok => guardOfDecode roles (decode_jwt cfgSecret envSecret now tok)

/-- HTTP boundary of the guard: status code and error body for each
failure (`jsonify({"error": ...}), status`); `success` runs the view. -/
def guardResponse : GuardResult → Option (Nat × String)
  | GuardResult.missingHeader => some (401, "Missing or invalid Authorization header")
  | GuardResult.invalidToken => some (401, "Invalid token")
  | GuardResult.forbidden => some (403, "Forbidden")
  | GuardResult.success _ _ => none

/-! ### Startup migration (app/__init__.py lines 15-102, 222-226)

Effects are modelled explicitly: the environment supplies the outcome of
every fallible primitive, and the routine produces the ordered event
trace plus the exception (if any) escaping `_auto_migrate`.  Exception
kinds are Python `Exception`-level errors, the class every handler in
this code catches; process-control signals (`KeyboardInterrupt` and
similar) are outside the model.

`pg_advisory_lock` is session-level.  The `with engine.begin()` exit
(event `connClosed`) checks the pooled DBAPI connection back in to the
default QueuePool (nothing in the repository configures NullPool); the
Postgres session and any session-level advisory lock survive the
rollback-on-return and the check-in, so `connClosed` does NOT release
the lock.  The lock is released only by the explicit
`pg_advisory_unlock` in the `finally` block (event `lockReleased`),
which raises — with the error swallowed at app/__init__.py lines 96-99 —
when the connection's transaction has been aborted by a failed
`DROP TABLE alembic_version` (the `dropOk = false` case) or when the
unlock fails for any other reason (`unlockOk = false`).  The retry
outcome `ok` after the second upgrade attempt is only logged by the
source, never branched on, so it is not part of the environment. -/

inductive UpgradeOutcome
  | success
  | commandError (revisionMissing : Bool)
  | unexpectedError
deriving DecidableEq

/-- app/__init__.py `_alembic_upgrade_head_safely`: returns `True` on a
clean upgrade, catches `CommandError` and any other `BaseException`,
returning `False`; it never raises. -/
def _alembic_upgrade_head_safely : UpgradeOutcome → Bool
  | UpgradeOutcome.success => true
  | UpgradeOutcome.commandError _ => false
  | UpgradeOutcome.unexpectedError => false

inductive MigEvent
  | lockAcquired
  | upgradeAttempt
  | dropVersionTable
  | createAll
  | stampHead
  | lockReleased
  | connClosed
deriving DecidableEq

structure MigEnv where
  autoMigrateEnv : Option String
  dbUri : String
  engineOk : Bool
  lockOk : Bool
  upgrade1 : UpgradeOutcome
  dropOk : Bool
  hasTableOk : Bool
  coreTables : Bool
  unlockOk : Bool

structure MigOutcome where
  events : List MigEvent
  raised : Option String
deriving DecidableEq

/-- Python `uri.startswith("postgresql")`, on character lists. -/
def strStartsWith (s pre : String) : Bool :=
  s.toList.take pre.toList.length == pre.toList

/-- Body of the inner `try` once the advisory lock is held: upgrade, on
failure execute `DROP TABLE alembic_version` on `conn` (a failure of the
drop is caught and logged at lines 72-73 and control continues, but it
leaves the transaction on `conn` aborted — see `txAborted`) and retry the
upgrade once (Flask-Migrate uses its own connection, unaffected), then
check core tables (`insp.has_table` on the inspector's own connection,
which may itself raise) and bootstrap via `create_all` + `stamp` (each
individually caught) when none exist.  Returns the events plus the
exception escaping the `try`. -/
def _migrate_body (env : MigEnv) : List MigEvent × Option String :=
  let e1 := [MigEvent.upgradeAttempt]
  let e2 := if _alembic_upgrade_head_safely env.upgrade1 then e1
            else e1 ++ [MigEvent.dropVersionTable, MigEvent.upgradeAttempt]
  if !env.hasTableOk then (e2, some "has_table raised")
  else if env.coreTables then (e2, none)
  else (e2 ++ [MigEvent.createAll, MigEvent.stampHead], none)

/-- The transaction on `conn` is aborted server-side exactly when the
`DROP TABLE alembic_version` statement was executed (first upgrade
attempt failed) and itself failed; from then on every statement on
`conn` — in particular the `finally` block's `pg_advisory_unlock` —
raises `InFailedSqlTransaction`. -/
def txAborted (env : MigEnv) : Bool :=
  !_alembic_upgrade_head_safely env.upgrade1 && !env.dropOk

/-- Outer `except Exception` of `_auto_migrate` (app/__init__.py line
101): whatever exception the locked section lets through is caught and
logged; nothing escapes. -/
def outerCatch : Option String → Option String
  | some _ => none
  | none => none

theorem outerCatch_eq_none (o : Option String) : outerCatch o = none := by
  cases o <;> rfl

/-- app/__init__.py `_auto_migrate(app)`: skip unless `AUTO_MIGRATE` is
"1" and the URI is Postgres; acquire the advisory lock (a failure there
is caught and the routine returns); run the body; in `finally`, attempt
the unlock, which succeeds (event `lockReleased`) only when the
transaction on `conn` is not aborted and the call itself does not fail —
its exception is swallowed; the `with` block exit checks the connection
back in to the pool (event `connClosed`, which does not end the session
or release the lock); the outer `except Exception` (`outerCatch`)
absorbs anything the body let through. -/
def _auto_migrate (env : MigEnv) : MigOutcome :=
  if env.autoMigrateEnv.getD "1" ≠ "1" then ⟨[], none⟩
  else if !strStartsWith env.dbUri "postgresql" then ⟨[], none⟩
  else if !env.engineOk then ⟨[], none⟩
  else if !env.lockOk then ⟨[MigEvent.connClosed], none⟩
  else
    ⟨MigEvent.lockAcquired :: (_migrate_body env).1 ++
      (if env.unlockOk && !txAborted env then [MigEvent.lockReleased] else []) ++
        [MigEvent.connClosed],
     outerCatch (_migrate_body env).2⟩

/-- Conditions under which `_auto_migrate` reaches the locked migration
section. -/
def migrationRuns (env : MigEnv) : Prop :=
  env.autoMigrateEnv.getD "1" = "1" ∧ strStartsWith env.dbUri "postgresql" = true ∧
    env.engineOk = true ∧ env.lockOk = true

/-- The advisory lock is still held by the pooled session when
`_auto_migrate` returns: it was acquired and the explicit unlock never
succeeded (session-level locks survive rollback and pool check-in). -/
def lockHeldAtReturn (env : MigEnv) : Bool :=
  decide (MigEvent.lockAcquired ∈ (_auto_migrate env).events) &&
    !decide (MigEvent.lockReleased ∈ (_auto_migrate env).events)

/-! ### Login handlers (auth/routes.py, mechanics/routes.py lines 77-94)

The credential store is the external collaborator: lookup by email and a
password check per principal.  `hasattr(x, "check_password")` holds for
the models in this repository, so the check is the store's `checkPassword`. -/

structure Principal where
  pid : Nat

structure CredStore where
  findByEmail : String → Option Principal
  checkPassword : Principal → String → Bool

structure LoginReq where
  email : Option String
  password : Option String

/-- Python truthiness of an optional string field from the JSON body. -/
def pyTruthy : Option String → Bool
  | none => false
  | some s => s ≠ ""

inductive LoginResult
  | badRequest (msg : String)
  | invalidCredentials
  | issued (token : String)
deriving DecidableEq

/-- Missing-field list computed by auth/routes.py `_require`. -/
def missingFields (req : LoginReq) : List String :=
  (if pyTruthy req.email then [] else ["email"]) ++
    (if pyTruthy req.password then [] else ["password"])

/-- Email normalization `data["email"].strip().lower()` of the auth
blueprint handlers. -/
def normEmail (e : String) : String := String.mk (lowerL (stripL e.toList))

/-- auth/routes.py `customer_login`: validate fields, normalize the email
with `.strip().lower()`, look up the customer, check the password, and
issue a token with role "customer" (and the default 8-hour lifetime). -/
def customer_login (store : CredStore) (cfgSecret envSecret : Option String) (now : Int)
    (req : LoginReq) : LoginResult :=
  if !(missingFields req).isEmpty then
    LoginResult.badRequest ("Missing required field(s): " ++
      String.intercalate ", " (missingFields req))
  else
    match store.findByEmail (normEmail (req.email.getD "")) with
    | none => LoginResult.invalidCredentials
    | some cust =>
      if !store.checkPassword cust (req.password.getD "") then LoginResult.invalidCredentials
      else LoginResult.issued
        (generate_token cfgSecret envSecret now (toString cust.pid) (some "customer") 28800)

/-- auth/routes.py `mechanic_login` (the `/mechanics/login` route of the
auth blueprint): identical shape, role "mechanic". -/
def auth_mechanic_login (store : CredStore) (cfgSecret envSecret : Option String) (now : Int)
    (req : LoginReq) : LoginResult :=
  if !(missingFields req).isEmpty then
    LoginResult.badRequest ("Missing required field(s): " ++
      String.intercalate ", " (missingFields req))
  else
    match store.findByEmail (normEmail (req.email.getD "")) with
    | none => LoginResult.invalidCredentials
    | some mech =>
      if !store.checkPassword mech (req.password.getD "") then LoginResult.invalidCredentials
      else LoginResult.issued
        (generate_token cfgSecret envSecret now (toString mech.pid) (some "mechanic") 28800)

/-- mechanics/routes.py `mechanic_login` (the blueprint's own `/login`):
marshmallow validation first (its outcome supplied as `schemaOk`), then a
raw-email lookup and password check; on success it calls
`encode_token(identity)` with NO role argument and the default lifetime. -/
def mechanics_bp_login (store : CredStore) (cfgSecret envSecret : Option String) (now : Int)
    (schemaOk : Bool) (req : LoginReq) : LoginResult :=
  if !schemaOk then LoginResult.badRequest "schema validation errors"
  else
    match store.findByEmail (req.email.getD "") with
    | none => LoginResult.invalidCredentials
    | some mech =>
      if !store.checkPassword mech (req.password.getD "") then LoginResult.invalidCredentials
      else LoginResult.issued
        (encode_token cfgSecret envSecret now (toString mech.pid) none 28800)

/-- HTTP boundary of a login failure: `invalidCredentials` is rendered as
status 401 with body `{"error": "Invalid credentials"}` in all three
handlers. -/
def loginResponse : LoginResult → Nat × String
  | LoginResult.badRequest msg => (400, msg)
  | LoginResult.invalidCredentials => (401, "Invalid credentials")
  | LoginResult.issued _ => (200, "token")

/-! ### Claim theorems -/

/-- C1: for a non-empty subject and a recognized role, decoding
`encode_token(subject, role, ttl)` under the same secret configuration
yields exactly the pair (subject, role) at any time strictly before
`ttl` has elapsed since issuance, and the Expired error at any time
strictly after. -/
theorem issue_verify_roundtrip (cfgSecret envSecret : Option String)
    (sub role : String) (ttl t0 t1 : Int)
    (hsub : sub ≠ "") (hrole : role = "customer" ∨ role = "mechanic") :
    (t1 < t0 + ttl →
      decodedSubRole (decode_jwt cfgSecret envSecret t1
        (encode_token cfgSecret envSecret t0 sub (some role) ttl)) = some (sub, some role))
    ∧ (t0 + ttl < t1 →
      decode_jwt cfgSecret envSecret t1
        (encode_token cfgSecret envSecret t0 sub (some role) ttl) =
        DecodeResult.error TokenError.expired) := by
  have hrne : role ≠ "" := by rcases hrole with rfl | rfl <;> decide
  have henc : encode_token cfgSecret envSecret t0 sub (some role) ttl =
      serialize ⟨sub, t0, t0 + ttl, some role⟩ (_secret_key cfgSecret envSecret) := by
    unfold encode_token
    have hm : (match some role with
      | some r => if r = "" then none else some r
      | none => (none : Option String)) = some role := by
      show (if role = "" then none else some role) = some role
      rw [if_neg hrne]
    rw [hm]
  constructor
  · intro hlt
    rw [henc]
    unfold decode_jwt
    rw [jwt_decode_serialize]
    rw [if_neg (show ¬ (Payload.mk sub t0 (t0 + ttl) (some role)).exp < t1 by
      show ¬ t0 + ttl < t1
      omega)]
    rfl
  · intro hgt
    rw [henc]
    unfold decode_jwt
    rw [jwt_decode_serialize]
    rw [if_pos (show (Payload.mk sub t0 (t0 + ttl) (some role)).exp < t1 by
      show t0 + ttl < t1
      omega)]

theorem issue_verify_roundtrip_witness :
    decodedSubRole (decode_jwt (some "k") none 100
      (encode_token (some "k") none 0 "42" (some "customer") 28800)) =
      some ("42", some "customer")
    ∧ decode_jwt (some "k") none 30000
      (encode_token (some "k") none 0 "42" (some "customer") 28800) =
      DecodeResult.error TokenError.expired :=
  ⟨(issue_verify_roundtrip (some "k") none "42" "customer" 28800 0 100 (by decide)
      (Or.inl rfl)).1 (by decide),
   (issue_verify_roundtrip (some "k") none "42" "customer" 28800 0 30000 (by decide)
      (Or.inl rfl)).2 (by decide)⟩

/-- C2: any token whose verification fails — malformed, bad signature, or
expired — produces one and the same outward guard failure: the single
invalidToken outcome, rendered as HTTP 401 with body
{"error": "Invalid token"}; nothing observable distinguishes the three
error kinds. -/
theorem guard_collapses_token_errors (cfgSecret envSecret : Option String) (now : Int)
    (roles : List String) (hdr : Option String) (tok : String) (e : TokenError)
    (hex : _extract_bearer_token (hdr.getD "") = some tok)
    (hdec : decode_jwt cfgSecret envSecret now tok = DecodeResult.error e) :
    token_required cfgSecret envSecret now roles hdr = GuardResult.invalidToken
    ∧ guardResponse (token_required cfgSecret envSecret now roles hdr) =
        some (401, "Invalid token") := by
  have h1 : token_required cfgSecret envSecret now roles hdr = GuardResult.invalidToken := by
    unfold token_required
    rw [hex]
    show guardOfDecode roles (decode_jwt cfgSecret envSecret now tok) =
      GuardResult.invalidToken
    rw [hdec]
    rfl
  exact ⟨h1, by rw [h1]; rfl⟩

theorem guard_collapses_witness :
    token_required (some "k") none 0 [] (some "Bearer x") = GuardResult.invalidToken
    ∧ guardResponse (token_required (some "k") none 0 [] (some "Bearer x")) =
        some (401, "Invalid token") :=
  guard_collapses_token_errors (some "k") none 0 [] (some "Bearer x") "x"
    TokenError.malformed (by decide) (by decide)

/-- C3 counterexample: under `ProductionConfig` with the SECRET_KEY
environment variable unset, the configured secret IS the hardcoded
development default, and `_secret_key` resolves to "dev-secret": the
default is used in a production configuration, contradicting the claim
that it never is. -/
theorem production_uses_dev_default :
    productionConfig_SECRET_KEY none = "dev-secret"
    ∧ _secret_key (some (productionConfig_SECRET_KEY none)) none = "dev-secret" :=
  ⟨rfl, rfl⟩

/-- C3 amended: the secret is re-resolved on every call through one
deterministic chain (config SECRET_KEY, else env SECRET_KEY, else
"dev-secret"), so issue and verify always agree under a fixed
configuration — a token issued by the process never fails its own
signature check — and in a production configuration the resolved secret
is the dev default exactly when the SECRET_KEY environment variable is
unset or explicitly set to that default. -/
theorem secret_resolution_amended :
    (∀ (cfgSecret envSecret : Option String) (t0 t1 ttl : Int) (sub : String)
        (role : Option String),
      decode_jwt cfgSecret envSecret t1 (encode_token cfgSecret envSecret t0 sub role ttl) ≠
        DecodeResult.error TokenError.badSignature)
    ∧ (∀ envSecret : Option String,
        productionConfig_SECRET_KEY envSecret = "dev-secret" ↔
          (envSecret = none ∨ envSecret = some "dev-secret")) := by
  constructor
  · intro cfgSecret envSecret t0 t1 ttl sub role
    unfold encode_token decode_jwt
    rw [jwt_decode_serialize]
    split <;> simp
  · intro envSecret
    cases envSecret with
    | none => simp [productionConfig_SECRET_KEY, config_SECRET_KEY]
    | some s => simp [productionConfig_SECRET_KEY, config_SECRET_KEY]

/-- C4 counterexample: a non-empty Authorization header that does not
carry the Bearer scheme is NOT rejected as a missing header — the raw
value is treated as the token itself: an unparsable raw header fails as
invalidToken, and a raw valid token is even accepted outright. -/
theorem raw_header_not_missing :
    token_required (some "k") none 0 [] (some "abc") = GuardResult.invalidToken
    ∧ token_required (some "k") none 0 []
        (some (serialize ⟨"7", 0, 1000, some "customer"⟩ "k")) =
        GuardResult.success "7" (some "customer") :=
  ⟨by decide, by decide⟩

theorem guardOfDecode_ne_missing (roles : List String) (d : DecodeResult) :
    guardOfDecode roles d ≠ GuardResult.missingHeader := by
  cases d with
  | error e => simp [guardOfDecode]
  | ok p =>
    show (if !roles.isEmpty && !roleMem p.role roles then GuardResult.forbidden
      else GuardResult.success p.sub p.role) ≠ GuardResult.missingHeader
    split <;> simp

/-- C4 amended: `token_required` fails with missingHeader exactly when
bearer extraction yields nothing — the header is absent, empty, or
reduces to nothing after removing whitespace and repeated Bearer
markers; in particular an absent header always yields missingHeader,
regardless of role set or clock.  A non-empty header without the Bearer
scheme is instead forwarded as a raw token to verification. -/
theorem missing_header_iff_no_extraction (cfgSecret envSecret : Option String) (now : Int)
    (roles : List String) (hdr : Option String) :
    (token_required cfgSecret envSecret now roles hdr = GuardResult.missingHeader ↔
      _extract_bearer_token (hdr.getD "") = none)
    ∧ token_required cfgSecret envSecret now roles none = GuardResult.missingHeader := by
  constructor
  · unfold token_required
    cases hext : _extract_bearer_token (hdr.getD "") with
    | none => simp
    | some tok =>
      have hne := guardOfDecode_ne_missing roles (decode_jwt cfgSecret envSecret now tok)
      simp [hne]
  · rfl

theorem mechanics_bp_login_token (store : CredStore) (cfgSecret envSecret : Option String)
    (now : Int) (schemaOk : Bool) (req : LoginReq) (tok : String)
    (h : mechanics_bp_login store cfgSecret envSecret now schemaOk req =
      LoginResult.issued tok) :
    ∃ pid : Nat, tok = encode_token cfgSecret envSecret now (toString pid) none 28800 := by
  unfold mechanics_bp_login at h
  cases schemaOk with
  | false => simp at h
  | true =>
    simp only [Bool.not_true, Bool.false_eq_true, if_false] at h
    cases hfind : store.findByEmail (req.email.getD "") with
    | none =>
      rw [hfind] at h
      simp at h
    | some mech =>
      rw [hfind] at h
      cases hpw : store.checkPassword mech (req.password.getD "") with
      | false =>
        simp only [hpw, Bool.not_false, if_true] at h
        simp at h
      | true =>
        simp only [hpw, Bool.not_true, Bool.false_eq_true, if_false] at h
        simp only [LoginResult.issued.injEq] at h
        exact ⟨mech.pid, h.symm⟩

/-- C5: for a token that verifies successfully and a non-empty required
role set, the guard fails with Forbidden (HTTP 403) exactly when the
decoded role claim is not a member of the set; in particular a token the
mechanics blueprint's own login issued (which carries no role claim)
yields Forbidden on every role-restricted route while it is unexpired. -/
theorem forbidden_iff_role_not_member (cfgSecret envSecret : Option String)
    (now tnow : Int) (p : Payload) (roles : List String)
    (hroles : roles ≠ []) (hexp : ¬ p.exp < tnow) (hexp2 : ¬ now + 28800 < tnow) :
    (token_required cfgSecret envSecret tnow roles
        (some ("Bearer " ++ serialize p (_secret_key cfgSecret envSecret))) =
          GuardResult.forbidden ↔ roleMem p.role roles = false)
    ∧ (∀ (store : CredStore) (schemaOk : Bool) (req : LoginReq) (tok : String),
        mechanics_bp_login store cfgSecret envSecret now schemaOk req =
          LoginResult.issued tok →
        token_required cfgSecret envSecret tnow roles (some ("Bearer " ++ tok)) =
          GuardResult.forbidden) := by
  have hre : roles.isEmpty = false := by
    cases roles with
    | nil => exact absurd rfl hroles
    | cons a l => rfl
  have hmain : ∀ q : Payload, ¬ q.exp < tnow →
      token_required cfgSecret envSecret tnow roles
        (some ("Bearer " ++ serialize q (_secret_key cfgSecret envSecret))) =
        guardOfDecode roles (DecodeResult.ok q) := by
    intro q hq
    unfold token_required
    have hex : _extract_bearer_token
        ((some ("Bearer " ++ serialize q (_secret_key cfgSecret envSecret))).getD "") =
        some (serialize q (_secret_key cfgSecret envSecret)) := by
      show _extract_bearer_token ("Bearer " ++ serialize q (_secret_key cfgSecret envSecret)) =
        some (serialize q (_secret_key cfgSecret envSecret))
      exact extract_bearer_of_token _
        (by rw [serialize_toList]; exact serializeChars_ne_nil q _)
        (by rw [serialize_toList]; exact serializeChars_not_space q _)
        (by rw [serialize_toList]; exact serializeChars_not_bearer q _)
    rw [hex]
    show guardOfDecode roles (decode_jwt cfgSecret envSecret tnow
      (serialize q (_secret_key cfgSecret envSecret))) = _
    unfold decode_jwt
    rw [jwt_decode_serialize, if_neg hq]
  constructor
  · rw [hmain p hexp]
    show (if !roles.isEmpty && !roleMem p.role roles then GuardResult.forbidden
      else GuardResult.success p.sub p.role) = GuardResult.forbidden ↔
      roleMem p.role roles = false
    cases hrm : roleMem p.role roles with
    | false =>
      rw [if_pos (by rw [hre]; rfl)]
      simp
    | true =>
      rw [if_neg (by rw [hre]; decide)]
      simp
  · intro store schemaOk req tok hiss
    obtain ⟨pid, rfl⟩ := mechanics_bp_login_token store cfgSecret envSecret now schemaOk
      req tok hiss
    have henc : encode_token cfgSecret envSecret now (toString pid) none 28800 =
        serialize ⟨toString pid, now, now + 28800, none⟩
          (_secret_key cfgSecret envSecret) := rfl
    rw [henc, hmain ⟨toString pid, now, now + 28800, none⟩ hexp2]
    show (if !roles.isEmpty && !roleMem none roles then GuardResult.forbidden
      else GuardResult.success (toString pid) none) = GuardResult.forbidden
    rw [if_pos (by rw [hre]; rfl)]

theorem forbidden_iff_witness :
    (token_required (some "k") none 0 ["mechanic"]
      (some ("Bearer " ++ serialize ⟨"7", 0, 1000, some "customer"⟩
        (_secret_key (some "k") none))) = GuardResult.forbidden ↔
      roleMem (some "customer") ["mechanic"] = false)
    ∧ token_required (some "k") none 0 ["mechanic"]
        (some ("Bearer " ++ encode_token (some "k") none 0 "3" none 28800)) =
        GuardResult.forbidden :=
  ⟨(forbidden_iff_role_not_member (some "k") none 0 0 ⟨"7", 0, 1000, some "customer"⟩
      ["mechanic"] (by decide) (by decide) (by decide)).1,
   (forbidden_iff_role_not_member (some "k") none 0 0 ⟨"3", 0, 28800, none⟩
      ["mechanic"] (by decide) (by decide) (by decide)).2
      ⟨fun _ => some ⟨3⟩, fun _ _ => true⟩ true ⟨some "e", some "pw"⟩
      (encode_token (some "k") none 0 "3" none 28800) rfl⟩

/-- C9: for a header of one or more leading case-insensitive Bearer
markers, separated and surrounded by arbitrary whitespace, followed by a
token that does not itself begin with "bearer", the parser strips every
marker and extracts exactly that token; a doubled `Bearer Bearer <token>`
header therefore yields the same token as a single one. -/
theorem repeated_bearer_stripped (w0 : List Char) (reps : List (List Char × List Char))
    (t : List Char) (hw0 : ∀ c ∈ w0, pyIsSpace c = true) (hreps_ne : reps ≠ [])
    (hreps : ∀ bw ∈ reps, lowerL bw.1 = bearerL ∧ ∀ c ∈ bw.2, pyIsSpace c = true)
    (hne : t ≠ []) (hl : lstripL t = t) (hr : rstripL t = t)
    (hb : (lowerL t).take 6 ≠ bearerL) :
    _extract_bearer_token (String.mk (w0 ++ joinReps reps t)) = some (String.mk t) := by
  unfold _extract_bearer_token
  have hlist_ne : w0 ++ joinReps reps t ≠ [] := by
    obtain ⟨x, hx⟩ := joinReps_ends t reps
    rw [hx]
    intro hcon
    simp [List.append_eq_nil] at hcon
    exact hne hcon.2.2
  have hsne : String.mk (w0 ++ joinReps reps t) ≠ "" := by
    intro hcon
    have h' := congrArg String.toList hcon
    exact hlist_ne (by simpa using h')
  rw [if_neg hsne]
  have htl : (String.mk (w0 ++ joinReps reps t)).toList = w0 ++ joinReps reps t := rfl
  rw [htl]
  have hstrip : stripL (w0 ++ joinReps reps t) = stripL (joinReps reps t) := by
    rw [stripL, stripL, lstripL_append_ws w0 _ hw0]
  rw [hstrip, stripBearers_stripL_joinReps t hne hl hr hb reps hreps, if_neg hne]

theorem repeated_bearer_witness :
    _extract_bearer_token (String.mk (([] : List Char) ++
      joinReps [(['B', 'e', 'a', 'r', 'e', 'r'], [' ']),
        (['b', 'E', 'A', 'R', 'E', 'R'], [' '])] "tok123".toList)) =
      some (String.mk "tok123".toList) :=
  repeated_bearer_stripped [] _ _ (by decide) (by decide) (by decide) (by decide)
    (by decide) (by decide) (by decide)

/-- C10: in all three login handlers, the two credential-failure causes —
no principal found for the email, and a password mismatch for an existing
principal — produce the identical observable outcome, invalidCredentials,
rendered as a 401 with body {"error": "Invalid credentials"}; the caller
cannot distinguish which check failed. -/
theorem login_failures_indistinguishable (store : CredStore)
    (cfgSecret envSecret : Option String) (now : Int) (req : LoginReq)
    (hemail : pyTruthy req.email = true) (hpw : pyTruthy req.password = true) :
    ((store.findByEmail (normEmail (req.email.getD "")) = none →
        customer_login store cfgSecret envSecret now req = LoginResult.invalidCredentials)
      ∧ (∀ p, store.findByEmail (normEmail (req.email.getD "")) = some p →
          store.checkPassword p (req.password.getD "") = false →
          customer_login store cfgSecret envSecret now req = LoginResult.invalidCredentials))
    ∧ ((store.findByEmail (normEmail (req.email.getD "")) = none →
          auth_mechanic_login store cfgSecret envSecret now req =
            LoginResult.invalidCredentials)
      ∧ (∀ p, store.findByEmail (normEmail (req.email.getD "")) = some p →
          store.checkPassword p (req.password.getD "") = false →
          auth_mechanic_login store cfgSecret envSecret now req =
            LoginResult.invalidCredentials))
    ∧ ((store.findByEmail (req.email.getD "") = none →
          mechanics_bp_login store cfgSecret envSecret now true req =
            LoginResult.invalidCredentials)
      ∧ (∀ p, store.findByEmail (req.email.getD "") = some p →
          store.checkPassword p (req.password.getD "") = false →
          mechanics_bp_login store cfgSecret envSecret now true req =
            LoginResult.invalidCredentials))
    ∧ loginResponse LoginResult.invalidCredentials = (401, "Invalid credentials") := by
  have hmf : missingFields req = [] := by
    unfold missingFields
    rw [hemail, hpw]
    rfl
  refine ⟨⟨?_, ?_⟩, ⟨?_, ?_⟩, ⟨?_, ?_⟩, rfl⟩
  · intro hfind
    simp [customer_login, hmf, hfind]
  · intro p hfind hpwf
    simp [customer_login, hmf, hfind, hpwf]
  · intro hfind
    simp [auth_mechanic_login, hmf, hfind]
  · intro p hfind hpwf
    simp [auth_mechanic_login, hmf, hfind, hpwf]
  · intro hfind
    simp [mechanics_bp_login, hfind]
  · intro p hfind hpwf
    simp [mechanics_bp_login, hfind, hpwf]

theorem login_failures_witness :
    customer_login ⟨fun _ => none, fun _ _ => true⟩ (some "k") none 0
      ⟨some "a@b.c", some "pw"⟩ = LoginResult.invalidCredentials
    ∧ customer_login ⟨fun _ => some ⟨1⟩, fun _ _ => false⟩ (some "k") none 0
      ⟨some "a@b.c", some "pw"⟩ = LoginResult.invalidCredentials
    ∧ auth_mechanic_login ⟨fun _ => none, fun _ _ => true⟩ (some "k") none 0
      ⟨some "a@b.c", some "pw"⟩ = LoginResult.invalidCredentials
    ∧ mechanics_bp_login ⟨fun _ => some ⟨1⟩, fun _ _ => false⟩ (some "k") none 0 true
      ⟨some "a@b.c", some "pw"⟩ = LoginResult.invalidCredentials :=
  ⟨(login_failures_indistinguishable ⟨fun _ => none, fun _ _ => true⟩ (some "k") none 0
      ⟨some "a@b.c", some "pw"⟩ (by decide) (by decide)).1.1 rfl,
   (login_failures_indistinguishable ⟨fun _ => some ⟨1⟩, fun _ _ => false⟩ (some "k") none 0
      ⟨some "a@b.c", some "pw"⟩ (by decide) (by decide)).1.2 ⟨1⟩ rfl rfl,
   (login_failures_indistinguishable ⟨fun _ => none, fun _ _ => true⟩ (some "k") none 0
      ⟨some "a@b.c", some "pw"⟩ (by decide) (by decide)).2.1.1 rfl,
   (login_failures_indistinguishable ⟨fun _ => some ⟨1⟩, fun _ _ => false⟩ (some "k") none 0
      ⟨some "a@b.c", some "pw"⟩ (by decide) (by decide)).2.2.1.2 ⟨1⟩ rfl rfl⟩

theorem _migrate_body_events (env : MigEnv) :
    (_migrate_body env).1 = (if _alembic_upgrade_head_safely env.upgrade1 then
        [MigEvent.upgradeAttempt]
      else [MigEvent.upgradeAttempt, MigEvent.dropVersionTable, MigEvent.upgradeAttempt]) ++
      (if !env.hasTableOk then [] else if env.coreTables then []
       else [MigEvent.createAll, MigEvent.stampHead]) := by
  unfold _migrate_body
  cases hup : _alembic_upgrade_head_safely env.upgrade1 <;>
    cases hht : env.hasTableOk <;> cases hct : env.coreTables <;> simp

theorem _auto_migrate_skip_am (env : MigEnv) (h1 : ¬ env.autoMigrateEnv.getD "1" = "1") :
    _auto_migrate env = ⟨[], none⟩ := by
  unfold _auto_migrate
  rw [if_pos h1]

theorem _auto_migrate_skip_uri (env : MigEnv) (h1 : env.autoMigrateEnv.getD "1" = "1")
    (h2 : strStartsWith env.dbUri "postgresql" = false) :
    _auto_migrate env = ⟨[], none⟩ := by
  unfold _auto_migrate
  rw [if_neg (fun hc => hc h1), if_pos (by rw [h2]; rfl)]

theorem _auto_migrate_skip_engine (env : MigEnv) (h1 : env.autoMigrateEnv.getD "1" = "1")
    (h2 : strStartsWith env.dbUri "postgresql" = true) (h3 : env.engineOk = false) :
    _auto_migrate env = ⟨[], none⟩ := by
  unfold _auto_migrate
  rw [if_neg (fun hc => hc h1), if_neg (by rw [h2]; decide), if_pos (by rw [h3]; rfl)]

theorem _auto_migrate_skip_lock (env : MigEnv) (h1 : env.autoMigrateEnv.getD "1" = "1")
    (h2 : strStartsWith env.dbUri "postgresql" = true) (h3 : env.engineOk = true)
    (h4 : env.lockOk = false) :
    _auto_migrate env = ⟨[MigEvent.connClosed], none⟩ := by
  unfold _auto_migrate
  rw [if_neg (fun hc => hc h1), if_neg (by rw [h2]; decide), if_neg (by rw [h3]; decide),
    if_pos (by rw [h4]; rfl)]

theorem _auto_migrate_locked (env : MigEnv) (h1 : env.autoMigrateEnv.getD "1" = "1")
    (h2 : strStartsWith env.dbUri "postgresql" = true) (h3 : env.engineOk = true)
    (h4 : env.lockOk = true) :
    _auto_migrate env = ⟨MigEvent.lockAcquired :: (_migrate_body env).1 ++
      (if env.unlockOk && !txAborted env then [MigEvent.lockReleased] else []) ++
        [MigEvent.connClosed],
      outerCatch (_migrate_body env).2⟩ := by
  unfold _auto_migrate
  rw [if_neg (fun hc => hc h1), if_neg (by rw [h2]; decide), if_neg (by rw [h3]; decide),
    if_neg (by rw [h4]; decide)]

/-- C6 counterexample: a first-upgrade failure whose cause is NOT the
missing-revision pointer (here a generic CommandError) still triggers the
drop-the-bookkeeping-table-and-retry step. -/
theorem drop_on_any_failure :
    MigEvent.dropVersionTable ∈ (_auto_migrate ⟨none, "postgresql://db", true, true,
      UpgradeOutcome.commandError false, true, true, true, true⟩).events
    ∧ (⟨none, "postgresql://db", true, true, UpgradeOutcome.commandError false, true, true,
        true, true⟩ : MigEnv).upgrade1 ≠ UpgradeOutcome.commandError true :=
  ⟨by decide, by decide⟩

/-- C6 amended: the drop-and-retry step is taken exactly when the locked
migration section is reached and the first upgrade attempt fails,
whatever the cause of the failure; the retry is attempted at most once
(never more than two upgrade attempts in a run). -/
theorem drop_iff_first_failure (env : MigEnv) :
    (MigEvent.dropVersionTable ∈ (_auto_migrate env).events ↔
      migrationRuns env ∧ _alembic_upgrade_head_safely env.upgrade1 = false)
    ∧ (_auto_migrate env).events.count MigEvent.upgradeAttempt ≤ 2 := by
  by_cases h1 : env.autoMigrateEnv.getD "1" = "1"
  case neg =>
    rw [_auto_migrate_skip_am env h1]
    constructor
    · simp [migrationRuns, h1]
    · simp
  case pos =>
  cases h2 : strStartsWith env.dbUri "postgresql"
  case false =>
    rw [_auto_migrate_skip_uri env h1 h2]
    constructor
    · simp [migrationRuns, h2]
    · simp
  case true =>
  cases h3 : env.engineOk
  case false =>
    rw [_auto_migrate_skip_engine env h1 h2 h3]
    constructor
    · simp [migrationRuns, h3]
    · simp
  case true =>
  cases h4 : env.lockOk
  case false =>
    rw [_auto_migrate_skip_lock env h1 h2 h3 h4]
    constructor
    · simp [migrationRuns, h4]
    · simp
  case true =>
  have hmr : migrationRuns env := ⟨h1, h2, h3, h4⟩
  rw [_auto_migrate_locked env h1 h2 h3 h4]
  constructor
  · show MigEvent.dropVersionTable ∈ MigEvent.lockAcquired :: (_migrate_body env).1 ++
      (if env.unlockOk && !txAborted env then [MigEvent.lockReleased] else []) ++
        [MigEvent.connClosed] ↔ _
    rw [_migrate_body_events]
    cases h5 : env.unlockOk && !txAborted env <;>
      cases hup : _alembic_upgrade_head_safely env.upgrade1 <;>
        cases hht : env.hasTableOk <;> cases hct : env.coreTables <;> simp [hmr]
  · show (MigEvent.lockAcquired :: (_migrate_body env).1 ++
      (if env.unlockOk && !txAborted env then [MigEvent.lockReleased] else []) ++
        [MigEvent.connClosed]).count MigEvent.upgradeAttempt ≤ 2
    rw [_migrate_body_events]
    cases h5 : env.unlockOk && !txAborted env <;>
      cases hup : _alembic_upgrade_head_safely env.upgrade1 <;>
        cases hht : env.hasTableOk <;> cases hct : env.coreTables <;> decide

/-- C7: the migration guard never lets an exception escape: for every
environment outcome, `_auto_migrate` finishes with nothing raised — every
failure branch is caught and logged — so `create_app` (which additionally
wraps the call in its own try/except) always completes startup and
returns an app. -/
theorem auto_migrate_never_raises (env : MigEnv) : (_auto_migrate env).raised = none := by
  unfold _auto_migrate
  split_ifs <;> first
    | rfl
    | exact outerCatch_eq_none _

theorem lockReleased_not_in_body (env : MigEnv) :
    MigEvent.lockReleased ∉ (_migrate_body env).1 := by
  rw [_migrate_body_events]
  cases hup : _alembic_upgrade_head_safely env.upgrade1 <;>
    cases hht : env.hasTableOk <;> cases hct : env.coreTables <;> decide

/-- C8 counterexample: when the first upgrade attempt fails and the
`DROP TABLE alembic_version` on `conn` also fails, the transaction on
`conn` is aborted; the `finally` block's `pg_advisory_unlock` then raises
`InFailedSqlTransaction` and the error is swallowed (lines 96-99), the
connection is merely checked back in to the pool at the `with` exit, and
the session keeps the advisory lock after the startup routine returns. -/
theorem lock_leak_on_drop_failure :
    MigEvent.lockAcquired ∈ (_auto_migrate ⟨none, "postgresql://db", true, true,
      UpgradeOutcome.commandError false, false, true, true, true⟩).events
    ∧ MigEvent.lockReleased ∉ (_auto_migrate ⟨none, "postgresql://db", true, true,
      UpgradeOutcome.commandError false, false, true, true, true⟩).events
    ∧ lockHeldAtReturn ⟨none, "postgresql://db", true, true,
      UpgradeOutcome.commandError false, false, true, true, true⟩ = true :=
  ⟨by decide, by decide, by decide⟩

/-- C8 amended: whenever the guard acquires the advisory lock, the
`finally` block attempts the explicit unlock before the startup routine
returns, and the release succeeds exactly when the unlock call does not
fail and the connection's transaction was not aborted by a failed
bookkeeping-table drop; the connection itself is always checked back in
on every path, but on the failure paths the swallowed unlock error
leaves the session-level lock held past the return. -/
theorem lock_release_characterization (env : MigEnv)
    (h : MigEvent.lockAcquired ∈ (_auto_migrate env).events) :
    (MigEvent.lockReleased ∈ (_auto_migrate env).events ↔
      env.unlockOk = true ∧ txAborted env = false)
    ∧ MigEvent.connClosed ∈ (_auto_migrate env).events
    ∧ (lockHeldAtReturn env = true ↔
        ¬ (env.unlockOk = true ∧ txAborted env = false)) := by
  by_cases h1 : env.autoMigrateEnv.getD "1" = "1"
  case neg =>
    rw [_auto_migrate_skip_am env h1] at h
    simp at h
  case pos =>
  cases h2 : strStartsWith env.dbUri "postgresql"
  case false =>
    rw [_auto_migrate_skip_uri env h1 h2] at h
    simp at h
  case true =>
  cases h3 : env.engineOk
  case false =>
    rw [_auto_migrate_skip_engine env h1 h2 h3] at h
    simp at h
  case true =>
  cases h4 : env.lockOk
  case false =>
    rw [_auto_migrate_skip_lock env h1 h2 h3 h4] at h
    simp at h
  case true =>
  have hnb := lockReleased_not_in_body env
  have hrel : MigEvent.lockReleased ∈ (_auto_migrate env).events ↔
      env.unlockOk = true ∧ txAborted env = false := by
    rw [_auto_migrate_locked env h1 h2 h3 h4]
    cases hu : env.unlockOk <;> cases hta : txAborted env <;> simp [hnb]
  refine ⟨hrel, ?_, ?_⟩
  · rw [_auto_migrate_locked env h1 h2 h3 h4]
    simp
  · unfold lockHeldAtReturn
    rw [decide_eq_true h]
    by_cases hr2 : env.unlockOk = true ∧ txAborted env = false
    · have hmem : MigEvent.lockReleased ∈ (_auto_migrate env).events := hrel.mpr hr2
      simp [hmem, hr2]
    · have hmem : MigEvent.lockReleased ∉ (_auto_migrate env).events :=
        fun hc => hr2 (hrel.mp hc)
      simp [hmem, hr2]

theorem lock_release_witness :
    MigEvent.lockReleased ∈ (_auto_migrate ⟨none, "postgresql://db", true, true,
      UpgradeOutcome.success, true, true, true, true⟩).events
    ∧ MigEvent.connClosed ∈ (_auto_migrate ⟨none, "postgresql://db", true, true,
      UpgradeOutcome.success, true, true, true, true⟩).events :=
  ⟨(lock_release_characterization ⟨none, "postgresql://db", true, true,
      UpgradeOutcome.success, true, true, true, true⟩ (by decide)).1.mpr ⟨rfl, rfl⟩,
   (lock_release_characterization ⟨none, "postgresql://db", true, true,
      UpgradeOutcome.success, true, true, true, true⟩ (by decide)).2.1⟩

end Render

